import Mathlib

/-!
Verification of the iceoryx shared-memory publish/subscribe core against its
natural-language specification. Components present in the sources
(console logger) are embedded from the C++ code; components whose
implementation is absent from the sources (chunk reference counting,
delivery queues, history cache, notifier, offset pointers, gateway channel
creation, unique typed ids) are modelled from the specification text.
-/

namespace Iceoryx

/-! ### Console logger (embedded from console_logger.cpp)

The thread-local log buffer has BUFFER_SIZE usable bytes and
NULL_TERMINATED_BUFFER_SIZE = BUFFER_SIZE + 1 array slots. We model the
evolution of the write index m_bufferWriteIndex under the two operations
that move it, createLogMessageHeader and logString, and record the highest
array slot each snprintf call touches. snprintf with buffer size n writes
at most n - 1 characters plus one terminating null and returns the length
the full output would have had. -/

/-- A call that moves the write index: createLogMessageHeader with a given
snprintf return value (negative on encoding failure), or logString with a
message of the given length (snprintf with a plain string conversion
returns the length of the message). -/
inductive LogOp where
  | createHeader (retVal : Int)
  | logString (msgLen : Nat)
deriving Repr, DecidableEq

/-- Write-index update of createLogMessageHeader: on snprintf failure the
index is untouched; otherwise it becomes the returned size, clamped to
BUFFER_SIZE. -/
def headerStep (bufSize : Nat) (retVal : Int) (idx : Nat) : Nat :=
  if retVal < 0 then idx
  else if retVal.toNat ≤ bufSize then retVal.toNat else bufSize

/-- Write-index update of logString: the index advances by the message
length, clamped to BUFFER_SIZE when the message does not fit. -/
def logStringStep (bufSize : Nat) (msgLen : Nat) (idx : Nat) : Nat :=
  if idx + msgLen ≤ bufSize then idx + msgLen else bufSize

/-- One step of the write index under a logger call. -/
def logStep (bufSize : Nat) (idx : Nat) : LogOp → Nat
  | .createHeader retVal => headerStep bufSize retVal idx
  | .logString msgLen => logStringStep bufSize msgLen idx

/-- Write index after a sequence of logger calls, starting from the
thread-local initial value 0. -/
def runLogOps (bufSize : Nat) (ops : List LogOp) : Nat :=
  ops.foldl (logStep bufSize) 0

/-- Highest array slot written by the snprintf of one logger call when the
write index is idx: createLogMessageHeader writes at slots 0 .. min(retVal,
BUFFER_SIZE) (the last one the null terminator); logString writes from idx
with buffer size NULL_TERMINATED_BUFFER_SIZE - idx, hence up to
idx + min(msgLen, BUFFER_SIZE - idx). -/
def opWriteTop (bufSize : Nat) (idx : Nat) : LogOp → Nat
  | .createHeader retVal => if retVal < 0 then 0 else min retVal.toNat bufSize
  | .logString msgLen => idx + min msgLen (bufSize - idx)

/-- Every snprintf of the call sequence stays within the
NULL_TERMINATED_BUFFER_SIZE = BUFFER_SIZE + 1 array slots, tracking the
write index along the run. -/
def allWritesInBounds (bufSize : Nat) : Nat → List LogOp → Bool
  | _, [] => true
  | idx, op :: rest =>
    decide (opWriteTop bufSize idx op < bufSize + 1)
      && allWritesInBounds bufSize (logStep bufSize idx op) rest

/-! ### Chunk reference counting

Modelled from the spec: the chunk header's atomic reference count and the
free-list membership of a single chunk, under the reference discipline of
section 4.3 (the mempool and chunk-management sources are not part of this
snapshot). loan takes a free chunk off its pool's free list with refcount
1; a publish duplication (into a queue or the history cache) increments;
pop moves an existing reference without touching the count; release
decrements and, on the transition to zero, returns the chunk to its origin
pool. -/

/-- A lifecycle operation on one chunk. -/
inductive ChunkOp where
  | loan
  | publishDup
  | pop
  | release
deriving Repr, DecidableEq

/-- Reference-count state of one chunk: its current refcount and whether it
sits on its origin pool's free list. -/
structure ChunkState where
  refcount : Nat
  onFreeList : Bool
deriving Repr, DecidableEq

/-- A freshly carved chunk: refcount zero, on the free list. -/
def initChunk : ChunkState := ⟨0, true⟩

/-- One valid step of the chunk lifecycle. The returned Bool records
whether this step returned the chunk to its origin pool. Operations that
violate the reference discipline (loaning a held chunk, duplicating or
releasing without holding a reference) are rejected with none. -/
def chunkStep (c : ChunkState) : ChunkOp → Option (ChunkState × Bool)
  | .loan =>
    if c.refcount = 0 && c.onFreeList then some (⟨1, false⟩, false) else none
  | .publishDup =>
    if 0 < c.refcount then some (⟨c.refcount + 1, c.onFreeList⟩, false) else none
  | .pop =>
    if 0 < c.refcount then some (c, false) else none
  | .release =>
    if c.refcount = 1 then some (⟨0, true⟩, true)
    else if 1 < c.refcount then some (⟨c.refcount - 1, c.onFreeList⟩, false)
    else none

/-- Run a sequence of lifecycle operations, accumulating the number of
times the chunk was returned to its pool; none if the sequence violates
the reference discipline. -/
def chunkRun : ChunkState × Nat → List ChunkOp → Option (ChunkState × Nat)
  | acc, [] => some acc
  | (c, rets), op :: rest =>
    match chunkStep c op with
    | some (c2, returned) => chunkRun (c2, rets + if returned then 1 else 0) rest
    | none => none

/-- Number of loans in an operation sequence. -/
def countLoans (ops : List ChunkOp) : Nat := ops.count ChunkOp.loan

/-! ### Waitset notifier

Modelled from the spec: a notifier is a pair of a counting semaphore and an
atomic bitset (section 4.8). arm sets the bit and posts the semaphore once
when the bit was previously clear; wait blocks on the semaphore and then
swaps the whole bitset out, returning the swapped-out bits as the fired
indices. -/

/-- Notifier state: semaphore count and the bitset (as a natural number
whose binary digits are the bits). -/
structure Notifier where
  sem : Nat
  bits : Nat
deriving Repr, DecidableEq

/-- The arm operation at a given index: if the bit is already set, nothing
happens; if it was clear, the bit is set and the semaphore posted once. -/
def armBit (n : Notifier) (i : Nat) : Notifier :=
  if n.bits.testBit i then n
  else { sem := n.sem + 1, bits := n.bits ||| (1 <<< i) }

/-- The wait operation: none when the semaphore count is zero (the caller
would block); otherwise it decrements the semaphore, swaps the bitset out
and returns the old bits as the fired indices. -/
def waitNotifier (n : Notifier) : Option (Nat × Notifier) :=
  if n.sem = 0 then none
  else some (n.bits, { sem := n.sem - 1, bits := 0 })

/-- A notifier history event: an arm at some index, or a completed wait. -/
inductive NotifierOp where
  | arm (i : Nat)
  | wait
deriving Repr, DecidableEq

/-- One notifier step; a wait that would block leaves the state unchanged
(the operation has not completed). -/
def notifierStep (n : Notifier) : NotifierOp → Notifier
  | .arm i => armBit n i
  | .wait =>
    match waitNotifier n with
    | some (_, n2) => n2
    | none => n

/-- Notifier state after a sequence of events, from the initial state with
an empty bitset and a semaphore count of zero. -/
def runNotifier (ops : List NotifierOp) : Notifier :=
  ops.foldl notifierStep ⟨0, 0⟩

/-! ### UniqueTypedId

Modelled from the spec: the unique typed id draws its value from a
monotonically incremented per-type global counter at default construction
(the header is not part of this snapshot; behaviour as pinned down by
test_cxx_unique_typed_id.cpp). Copy and move construction and assignment
carry the id value over; conversion to uint64_t and the ordering operators
act on the underlying value. -/

/-- A unique typed id is a wrapper around its uint64_t counter value. -/
structure UniqueTypedId where
  value : Nat
deriving Repr, DecidableEq

/-- Default construction: draw the current counter value and increment the
per-type global counter. -/
def nextUniqueId (counter : Nat) : UniqueTypedId × Nat :=
  (⟨counter⟩, counter + 1)

/-- Copy or move construction and assignment preserve the id value. -/
def copyId (a : UniqueTypedId) : UniqueTypedId := ⟨a.value⟩

/-- Conversion to uint64_t yields the underlying value. -/
def UniqueTypedId.toU64 (a : UniqueTypedId) : Nat := a.value

/-- The less-than operator compares the underlying values. -/
def idLt (a b : UniqueTypedId) : Bool := a.value < b.value

/-- The less-or-equal operator compares the underlying values. -/
def idLe (a b : UniqueTypedId) : Bool := a.value ≤ b.value

/-- The equality operator compares the underlying values. -/
def idEq (a b : UniqueTypedId) : Bool := a.value = b.value

/-! ### Per-publisher FIFO ordering

Modelled from the spec: a publisher stamps each published chunk with a
freshly drawn sequence number (section 4.4) and pushes into each
subscriber's bounded FIFO delivery queue under the subscriber's overflow
policy (section 4.5); the subscriber pops from the front. -/

/-- The queue-full policy fixed at construction time. -/
inductive OverflowPolicy where
  | discardNew
  | dropOldest
deriving Repr, DecidableEq

/-- State of one publisher/subscriber pair: the publisher's sequence
counter, the delivery queue (front first) and the sequence numbers the
subscriber has observed, in pop order. -/
structure PubSubState where
  nextSeq : Nat
  queue : List Nat
  observed : List Nat
deriving Repr, DecidableEq

/-- Publish one chunk: stamp the next sequence number and enqueue it; on a
full queue, DISCARD_NEW drops the incoming chunk and DROP_OLDEST evicts
the queue head before enqueueing. -/
def publishSeq (cap : Nat) (pol : OverflowPolicy) (s : PubSubState) : PubSubState :=
  if s.queue.length < cap then
    { s with nextSeq := s.nextSeq + 1, queue := s.queue ++ [s.nextSeq] }
  else
    match pol with
    | .discardNew => { s with nextSeq := s.nextSeq + 1 }
    | .dropOldest =>
      { s with nextSeq := s.nextSeq + 1, queue := s.queue.tail ++ [s.nextSeq] }

/-- Pop one chunk from the front of the delivery queue, observing its
sequence number; a pop on an empty queue observes nothing. -/
def popSeq (s : PubSubState) : PubSubState :=
  match s.queue with
  | [] => s
  | x :: rest => { s with queue := rest, observed := s.observed ++ [x] }

/-- An event of the pair: a publish by the publisher or a pop by the
subscriber. -/
inductive PubSubOp where
  | publish
  | pop
deriving Repr, DecidableEq

/-- One step of the publisher/subscriber pair. -/
def pubSubStep (cap : Nat) (pol : OverflowPolicy) (s : PubSubState) : PubSubOp → PubSubState
  | .publish => publishSeq cap pol s
  | .pop => popSeq s

/-- State of the pair after an interleaving of publishes and pops, from the
initial empty state. -/
def runPubSub (cap : Nat) (pol : OverflowPolicy) (ops : List PubSubOp) : PubSubState :=
  ops.foldl (pubSubStep cap pol) ⟨0, [], []⟩

/-! ### DISCARD_NEW queue accounting

Modelled from the spec: a bounded delivery queue of capacity cap under the
DISCARD_NEW policy (drop incoming, bump counter), with counters for
successful pushes, successful pops and overflows. -/

/-- Accounting state of a DISCARD_NEW delivery queue. -/
structure DNQueueState where
  queue : List Nat
  pushOk : Nat
  pops : Nat
  overflow : Nat
deriving Repr, DecidableEq

/-- An operation on the delivery queue: a push of a value or a pop. -/
inductive QueueOp where
  | push (v : Nat)
  | pop
deriving Repr, DecidableEq

/-- One step of the DISCARD_NEW queue: a push on a full queue drops the
incoming value and bumps the overflow counter; a pop on an empty queue
does nothing. -/
def dnStep (cap : Nat) (s : DNQueueState) : QueueOp → DNQueueState
  | .push v =>
    if s.queue.length < cap then
      { s with queue := s.queue ++ [v], pushOk := s.pushOk + 1 }
    else
      { s with overflow := s.overflow + 1 }
  | .pop =>
    match s.queue with
    | [] => s
    | _ :: rest => { s with queue := rest, pops := s.pops + 1 }

/-- Queue state after a sequence of pushes and pops, from the empty queue
with all counters zero. -/
def runDNQueue (cap : Nat) (ops : List QueueOp) : DNQueueState :=
  ops.foldl (dnStep cap) ⟨[], 0, 0, 0⟩

/-- Number of pushes attempted in an operation sequence. -/
def countPushes (ops : List QueueOp) : Nat :=
  ops.countP fun op => match op with | .push _ => true | .pop => false

/-! ### Segments and offset pointers

Modelled from the spec: a process's table of mapped segments, indexed by
segment id; ptr turns a (segment-id, byte-offset) pair into a raw address
as segment base plus offset, failing when the offset falls outside the
segment's size; offset_of locates the segment id by a linear scan of the
mapping table, checking the raw address against the bounds of each mapped
segment (section 4.1). -/

/-- A mapped segment as seen by one process: its base address and size. -/
structure SegmentInfo where
  base : Nat
  size : Nat
deriving Repr, DecidableEq

/-- Whether a raw address falls within the bounds of a mapped segment. -/
def segContains (seg : SegmentInfo) (addr : Nat) : Bool :=
  decide (seg.base ≤ addr) && decide (addr < seg.base + seg.size)

/-- The ptr operation: raw address of (segId, offset), or none when the
segment id is unmapped or the offset falls outside the segment's size
(ADDRESS_OUT_OF_SEGMENT). -/
def segPtr (table : List SegmentInfo) (segId offset : Nat) : Option Nat :=
  match table[segId]? with
  | some seg => if offset < seg.size then some (seg.base + offset) else none
  | none => none

/-- Linear scan of the mapping table from a starting index, returning the
first segment whose bounds contain the raw address, together with the
offset from that segment's base. -/
def offsetOfFrom : List SegmentInfo → Nat → Nat → Option (Nat × Nat)
  | [], _, _ => none
  | seg :: rest, i, addr =>
    if segContains seg addr then some (i, addr - seg.base)
    else offsetOfFrom rest (i + 1) addr

/-- The offset_of operation: segment id and byte offset of a raw address,
found by scanning the mapping table from index 0. -/
def offsetOf (table : List SegmentInfo) (addr : Nat) : Option (Nat × Nat) :=
  offsetOfFrom table 0 addr

/-- Two mapped segments occupy disjoint address ranges. -/
def SegDisjoint (s t : SegmentInfo) : Prop :=
  s.base + s.size ≤ t.base ∨ t.base + t.size ≤ s.base

instance (s t : SegmentInfo) : Decidable (SegDisjoint s t) :=
  inferInstanceAs (Decidable (s.base + s.size ≤ t.base ∨ t.base + t.size ≤ s.base))

/-! ### History cache and late-joiner replay

Modelled from the spec: the publisher's history cache is a ring of the
last N published chunk references, oldest first (section 4.6); on a new
subscriber requesting n chunks of history, the publisher replays
min(n, current_history_depth) chunks from oldest to newest into the new
subscriber's queue. -/

/-- Install a chunk into the history ring of the given capacity, evicting
the oldest entry when the ring is full. The list holds the history oldest
first. -/
def historyPush (cap : Nat) (hist : List Nat) (x : Nat) : List Nat :=
  (hist ++ [x]).drop (hist.length + 1 - cap)

/-- The chunks replayed to a subscriber requesting n chunks of history:
the last min(n, depth) entries of the ring, oldest to newest. -/
def historyReplay (n : Nat) (hist : List Nat) : List Nat :=
  hist.drop (hist.length - n)

/-- History ring contents after publishing the given payloads in order
into an empty ring of the given capacity. -/
def historyAfter (cap : Nat) (payloads : List Nat) : List Nat :=
  payloads.foldl (historyPush cap) []

/-- Delivery queue contents seen by a late joiner: the replayed chunks
pushed in replay order into its empty DISCARD_NEW queue. -/
def replayIntoQueue (qCap : Nat) (chunks : List Nat) : DNQueueState :=
  runDNQueue qCap (chunks.map QueueOp.push)

/-! ### Publish pipeline with pool accounting

Modelled from the spec: the full publish path of section 4.4 against one
subscriber, with the chunk pool's free count and per-chunk refcounts made
explicit. loan draws a chunk from the pool with refcount 1; publish
installs it in the history ring (evicting and releasing the oldest entry
when full), duplicates it into the subscriber's queue under DROP_OLDEST
(releasing an evicted queue head, bumping the overflow counter), and
finally releases the publisher's own reference. A release that drops a
refcount to zero returns the chunk to the pool. -/

/-- System state of one publisher, one subscriber and the chunk pool.
Chunks are identified by the order of their loan; rcs holds each chunk's
refcount and payloads its payload at that index. hist and queue hold chunk
ids, oldest or front first; observed holds the payloads seen by pops. -/
structure SysState where
  free : Nat
  rcs : List Nat
  payloads : List Nat
  hist : List Nat
  queue : List Nat
  overflow : Nat
  observed : List Nat
deriving Repr, DecidableEq

/-- Refcount of a chunk id (0 for an unknown id). -/
def getRc (rcs : List Nat) (id : Nat) : Nat := rcs.getD id 0

/-- Increment a chunk's refcount (duplicate a reference). -/
def addRef (s : SysState) (id : Nat) : SysState :=
  { s with rcs := s.rcs.set id (getRc s.rcs id + 1) }

/-- Release one reference to a chunk; on the transition to refcount zero
the chunk is returned to the pool, raising the free count. -/
def releaseRef (s : SysState) (id : Nat) : SysState :=
  if getRc s.rcs id = 1 then
    { s with rcs := s.rcs.set id 0, free := s.free + 1 }
  else
    { s with rcs := s.rcs.set id (getRc s.rcs id - 1) }

/-- Publish one payload: loan a fresh chunk (refcount 1, pool free count
down by one; a dry pool fails the loan and leaves the state unchanged),
install it in the history ring of capacity histCap (the history holds its
own reference; a full ring evicts and releases its oldest entry), enqueue
it to the subscriber's queue of capacity qCap under DROP_OLDEST
(incrementing the refcount before the enqueue; a full queue evicts and
releases the queue head and bumps the overflow counter), then release the
publisher's own reference. -/
def publishChunk (histCap qCap : Nat) (payload : Nat) (s : SysState) : SysState :=
  if s.free = 0 then s
  else
    let id := s.rcs.length
    let s1 : SysState :=
      { s with
        free := s.free - 1
        rcs := s.rcs ++ [1]
        payloads := s.payloads ++ [payload] }
    let s2 :=
      if s1.hist.length < histCap then
        addRef { s1 with hist := s1.hist ++ [id] } id
      else
        match s1.hist with
        | [] => s1
        | old :: rest => releaseRef (addRef { s1 with hist := rest ++ [id] } id) old
    let s3 :=
      if s2.queue.length < qCap then
        addRef { s2 with queue := s2.queue ++ [id] } id
      else
        match s2.queue with
        | [] => s2
        | h :: rest =>
          releaseRef
            (addRef { s2 with queue := rest ++ [id], overflow := s2.overflow + 1 } id) h
    releaseRef s3 id

/-- Pop the front of the subscriber's queue, observing the chunk's
payload; ownership of the queue's reference moves to the subscriber, so
the refcount is unchanged. -/
def popObserve (s : SysState) : SysState :=
  match s.queue with
  | [] => s
  | id :: rest => { s with queue := rest, observed := s.observed ++ [s.payloads.getD id 0] }

/-- Initial system state: a pool of the given total chunk count, nothing
loaned, empty history and queue. -/
def sysInit (total : Nat) : SysState := ⟨total, [], [], [], [], 0, []⟩

/-- The DROP_OLDEST overflow scenario: history capacity 2, queue capacity
2, four publishes of payloads 1, 2, 3, 4 back to back. -/
def scenarioAfterPublishes (total : Nat) : SysState :=
  [1, 2, 3, 4].foldl (fun s p => publishChunk 2 2 p s) (sysInit total)

/-- The scenario continued by the subscriber's two pops. -/
def scenarioAfterPops (total : Nat) : SysState :=
  popObserve (popObserve (scenarioAfterPublishes total))

/-! ### Gateway channel creation

Service descriptions are the CaPro triple of identifiers where each
component is either a concrete identifier or the wildcard; the GatewayError
enumeration is embedded from gateway_generic.hpp. addChannel is modelled
from the spec and from the declaration's contract in gateway_generic.hpp
(its definition in dds_gateway_generic.inl is not part of this snapshot):
wildcard services are not allowed and are ignored, every other service gets
a channel stored in the bounded internal collection. -/

/-- One component of a service description: a concrete identifier or the
wildcard. -/
inductive IdValue where
  | any
  | name (s : String)
deriving Repr, DecidableEq

/-- A CaPro service description triple. -/
structure ServiceDescription where
  serviceId : IdValue
  instanceId : IdValue
  eventId : IdValue
deriving Repr, DecidableEq

/-- Whether any component of a service description is the wildcard. -/
def hasWildcard (sd : ServiceDescription) : Bool :=
  sd.serviceId = IdValue.any || sd.instanceId = IdValue.any || sd.eventId = IdValue.any

/-- Whether one component of a discovery query matches a concrete
component: the wildcard matches anything, identifiers match by equality. -/
def idMatches (pat v : IdValue) : Bool :=
  pat = IdValue.any || pat = v

/-- Componentwise matching of a discovery query against a service
description. -/
def queryMatches (query sd : ServiceDescription) : Bool :=
  idMatches query.serviceId sd.serviceId
    && idMatches query.instanceId sd.instanceId
    && idMatches query.eventId sd.eventId

/-- The gateway error values of gateway_generic.hpp. -/
inductive GatewayError where
  | UNSUPPORTED_SERVICE_TYPE
  | UNSUCCESSFUL_CHANNEL_CREATION
  | NONEXISTANT_CHANNEL
deriving Repr, DecidableEq

/-- The gateway's internal channel collection: the service description of
each stored channel. -/
structure GatewayState where
  channels : List ServiceDescription
deriving Repr, DecidableEq

/-- The addChannel operation of capacity cap: a wildcard service is
ignored with UNSUPPORTED_SERVICE_TYPE; otherwise a channel for the service
is stored in the internal collection and a copy returned, failing with
UNSUCCESSFUL_CHANNEL_CREATION when the collection is full. -/
def addChannel (cap : Nat) (st : GatewayState) (sd : ServiceDescription) :
    Except GatewayError (ServiceDescription × GatewayState) :=
  if hasWildcard sd then .error .UNSUPPORTED_SERVICE_TYPE
  else if st.channels.length < cap then
    .ok (sd, { channels := st.channels ++ [sd] })
  else .error .UNSUCCESSFUL_CHANNEL_CREATION

/-! ## Theorems -/

/-- A single logger call keeps the write index within BUFFER_SIZE. -/
theorem logStep_le (bufSize idx : Nat) (op : LogOp) (h : idx ≤ bufSize) :
    logStep bufSize idx op ≤ bufSize := by
  cases op with
  | createHeader retVal =>
    simp only [logStep, headerStep]
    split
    · exact h
    · split <;> omega
  | logString msgLen =>
    simp only [logStep, logStringStep]
    split <;> omega

/-- Folding logger calls from any admissible index keeps the index within
BUFFER_SIZE. -/
theorem foldLogOps_le (bufSize : Nat) (ops : List LogOp) :
    ∀ idx : Nat, idx ≤ bufSize → ops.foldl (logStep bufSize) idx ≤ bufSize := by
  induction ops with
  | nil => intro idx h; simpa using h
  | cons op rest ih =>
    intro idx h
    exact ih _ (logStep_le _ _ _ h)

/-- A single logger call writes only within the null-terminated buffer when
the write index is admissible. -/
theorem opWriteTop_lt (bufSize idx : Nat) (op : LogOp) (h : idx ≤ bufSize) :
    opWriteTop bufSize idx op < bufSize + 1 := by
  cases op with
  | createHeader retVal =>
    simp only [opWriteTop]
    split <;> omega
  | logString msgLen =>
    simp only [opWriteTop]
    omega

/-- Folding logger calls from any admissible index keeps all writes within
the null-terminated buffer. -/
theorem foldWritesInBounds (bufSize : Nat) (ops : List LogOp) :
    ∀ idx : Nat, idx ≤ bufSize → allWritesInBounds bufSize idx ops = true := by
  induction ops with
  | nil => intro idx _; rfl
  | cons op rest ih =>
    intro idx h
    simp only [allWritesInBounds, Bool.and_eq_true, decide_eq_true_eq]
    exact ⟨opWriteTop_lt _ _ _ h, ih _ (logStep_le _ _ _ h)⟩

/-- C9: For every sequence of createLogMessageHeader and logString calls,
the thread-local write index m_bufferWriteIndex never exceeds BUFFER_SIZE,
every snprintf of the sequence writes only within the
NULL_TERMINATED_BUFFER_SIZE array bounds, and a logString message longer
than the remaining buffer space is truncated with the write index clamped
to BUFFER_SIZE. -/
theorem consoleLogger_buffer_safety (bufSize : Nat) (ops : List LogOp)
    (idx msgLen : Nat) (_h1 : idx ≤ bufSize) (h2 : bufSize < idx + msgLen) :
    runLogOps bufSize ops ≤ bufSize
    ∧ allWritesInBounds bufSize 0 ops = true
    ∧ logStringStep bufSize msgLen idx = bufSize := by
  refine ⟨foldLogOps_le bufSize ops 0 (Nat.zero_le _),
    foldWritesInBounds bufSize ops 0 (Nat.zero_le _), ?_⟩
  simp only [logStringStep]
  rw [if_neg (by omega)]

/-- Witness for C9 at BUFFER_SIZE 1024: a header write of 30 characters, a
3000-character message that truncates, and a clamped logString step at
index 1000. -/
theorem consoleLogger_buffer_safety_witness :
    (1000 ≤ 1024 ∧ 1024 < 1000 + 100)
    ∧ (runLogOps 1024 [LogOp.createHeader 30, LogOp.logString 3000] ≤ 1024
        ∧ allWritesInBounds 1024 0 [LogOp.createHeader 30, LogOp.logString 3000] = true
        ∧ logStringStep 1024 100 1000 = 1024) :=
  ⟨by decide,
    consoleLogger_buffer_safety 1024 [LogOp.createHeader 30, LogOp.logString 3000]
      1000 100 (by decide) (by decide)⟩

/-- C10: Of two consecutively default-constructed unique typed ids the
later one converts to a uint64_t exactly one greater than the earlier one
and compares strictly greater under the ordering operators, while copy and
move construction and assignment preserve the id, so copies compare
equal. -/
theorem uniqueTypedId_monotonic (c : Nat) :
    ((nextUniqueId (nextUniqueId c).2).1).toU64 = ((nextUniqueId c).1).toU64 + 1
    ∧ idLt (nextUniqueId c).1 (nextUniqueId (nextUniqueId c).2).1 = true
    ∧ idLe (nextUniqueId c).1 (nextUniqueId (nextUniqueId c).2).1 = true
    ∧ idLt (nextUniqueId (nextUniqueId c).2).1 (nextUniqueId c).1 = false
    ∧ idEq (nextUniqueId c).1 (nextUniqueId (nextUniqueId c).2).1 = false
    ∧ copyId (nextUniqueId c).1 = (nextUniqueId c).1
    ∧ idEq (copyId (nextUniqueId c).1) (nextUniqueId c).1 = true := by
  simp [nextUniqueId, UniqueTypedId.toU64, idLt, idLe, idEq, copyId]

/-- One notifier step preserves the no-lost-wakeup invariant: a nonempty
bitset implies a positive semaphore count. -/
theorem notifierStep_inv (n : Notifier) (op : NotifierOp)
    (h : n.bits ≠ 0 → 0 < n.sem) :
    (notifierStep n op).bits ≠ 0 → 0 < (notifierStep n op).sem := by
  cases op with
  | arm i =>
    by_cases hb : n.bits.testBit i
    · simpa [notifierStep, armBit, hb] using h
    · simp [notifierStep, armBit, hb]
  | wait =>
    by_cases hs : n.sem = 0
    · simpa [notifierStep, waitNotifier, hs] using h
    · simp [notifierStep, waitNotifier, hs]

/-- Every reachable notifier state satisfies the no-lost-wakeup invariant. -/
theorem runNotifier_inv (ops : List NotifierOp) :
    (runNotifier ops).bits ≠ 0 → 0 < (runNotifier ops).sem := by
  suffices h : ∀ n : Notifier, (n.bits ≠ 0 → 0 < n.sem) →
      ((ops.foldl notifierStep n).bits ≠ 0 → 0 < (ops.foldl notifierStep n).sem) by
    exact h ⟨0, 0⟩ (by simp)
  induction ops with
  | nil => intro n h; exact h
  | cons op rest ih =>
    intro n h
    exact ih _ (notifierStep_inv n op h)

/-- C7: arm sets its bit and posts the semaphore exactly once when the bit
was previously clear and is a no-op when the bit was already set; and in
every reachable notifier state whose bitset is nonempty after the last
swap, wait returns without blocking, yielding the swapped-out bits as the
fired indices. -/
theorem notifier_no_lost_wakeup (n m : Notifier) (i : Nat) (ops : List NotifierOp)
    (hclear : n.bits.testBit i = false) (hset : m.bits.testBit i = true)
    (hbits : (runNotifier ops).bits ≠ 0) :
    (armBit n i).sem = n.sem + 1
    ∧ (armBit n i).bits.testBit i = true
    ∧ armBit m i = m
    ∧ waitNotifier (runNotifier ops) =
        some ((runNotifier ops).bits, { sem := (runNotifier ops).sem - 1, bits := 0 }) := by
  refine ⟨?_, ?_, ?_, ?_⟩
  · simp [armBit, hclear]
  · simp [armBit, hclear, Nat.testBit_or, Nat.testBit_shiftLeft]
  · simp [armBit, hset]
  · have hs := runNotifier_inv ops hbits
    simp only [waitNotifier]
    rw [if_neg (by omega)]

/-- Witness for C7: arming bit 3 of an idle notifier, a notifier with bit
3 already set, and the one-event history that arms bit 3. -/
theorem notifier_no_lost_wakeup_witness :
    ((Notifier.mk 0 0).bits.testBit 3 = false ∧ (Notifier.mk 0 8).bits.testBit 3 = true
      ∧ (runNotifier [NotifierOp.arm 3]).bits ≠ 0)
    ∧ ((armBit ⟨0, 0⟩ 3).sem = (Notifier.mk 0 0).sem + 1
        ∧ (armBit ⟨0, 0⟩ 3).bits.testBit 3 = true
        ∧ armBit ⟨0, 8⟩ 3 = Notifier.mk 0 8
        ∧ waitNotifier (runNotifier [NotifierOp.arm 3]) =
            some ((runNotifier [NotifierOp.arm 3]).bits,
              { sem := (runNotifier [NotifierOp.arm 3]).sem - 1, bits := 0 })) :=
  ⟨by decide,
    notifier_no_lost_wakeup ⟨0, 0⟩ ⟨0, 8⟩ 3 [NotifierOp.arm 3]
      (by decide) (by decide) (by decide)⟩

/-- One valid chunk-lifecycle step preserves the free-list invariant and
accounts a pool return exactly at the transition of the refcount to zero,
balanced against loans. -/
theorem chunkStep_inv (c : ChunkState) (op : ChunkOp) (c2 : ChunkState) (returned : Bool)
    (hinv : c.refcount = 0 ↔ c.onFreeList = true)
    (h : chunkStep c op = some (c2, returned)) :
    (c2.refcount = 0 ↔ c2.onFreeList = true)
    ∧ (if returned then 1 else 0) + (if c2.onFreeList then 0 else 1)
        = (if c.onFreeList then 0 else 1) + (if op = ChunkOp.loan then 1 else 0) := by
  cases op with
  | loan =>
    simp only [chunkStep] at h
    split at h
    · rename_i hcond
      simp only [Bool.and_eq_true, decide_eq_true_eq] at hcond
      simp only [Option.some.injEq, Prod.mk.injEq] at h
      obtain ⟨rfl, rfl⟩ := h.symm
      simp [hcond.2]
    · exact absurd h (by simp)
  | publishDup =>
    simp only [chunkStep] at h
    split at h
    · rename_i hcond
      simp only [Option.some.injEq, Prod.mk.injEq] at h
      obtain ⟨rfl, rfl⟩ := h.symm
      have hfree : c.onFreeList = false := by
        cases hof : c.onFreeList
        · rfl
        · exact absurd (hinv.mpr hof) (by omega)
      simp [hfree]
    · exact absurd h (by simp)
  | pop =>
    simp only [chunkStep] at h
    split at h
    · rename_i hcond
      simp only [Option.some.injEq, Prod.mk.injEq] at h
      obtain ⟨rfl, rfl⟩ := h.symm
      simp [hinv]
    · exact absurd h (by simp)
  | release =>
    simp only [chunkStep] at h
    split at h
    · rename_i hcond
      simp only [Option.some.injEq, Prod.mk.injEq] at h
      obtain ⟨rfl, rfl⟩ := h.symm
      have hfree : c.onFreeList = false := by
        cases hof : c.onFreeList
        · rfl
        · exact absurd (hinv.mpr hof) (by omega)
      simp [hfree]
    · split at h
      · rename_i hgt
        simp only [Option.some.injEq, Prod.mk.injEq] at h
        obtain ⟨rfl, rfl⟩ := h.symm
        have hfree : c.onFreeList = false := by
          cases hof : c.onFreeList
          · rfl
          · exact absurd (hinv.mpr hof) (by omega)
        simp [hfree]
        omega
      · exact absurd h (by simp)

/-- Along any valid chunk-lifecycle run the free-list invariant holds and
pool returns balance loans. -/
theorem chunkRun_inv (ops : List ChunkOp) :
    ∀ (c : ChunkState) (rets : Nat) (st : ChunkState) (k : Nat),
    (c.refcount = 0 ↔ c.onFreeList = true) →
    chunkRun (c, rets) ops = some (st, k) →
    ((st.refcount = 0 ↔ st.onFreeList = true)
      ∧ k + (if st.onFreeList then 0 else 1)
          = rets + (if c.onFreeList then 0 else 1) + countLoans ops) := by
  induction ops with
  | nil =>
    intro c rets st k hinv hrun
    simp only [chunkRun, Option.some.injEq, Prod.mk.injEq] at hrun
    obtain ⟨h1, h2⟩ := hrun
    subst h1; subst h2
    simpa [countLoans] using hinv
  | cons op rest ih =>
    intro c rets st k hinv hrun
    rw [show chunkRun (c, rets) (op :: rest)
        = (match chunkStep c op with
          | some (c2, returned) => chunkRun (c2, rets + if returned then 1 else 0) rest
          | none => none) from rfl] at hrun
    cases hstep : chunkStep c op with
    | none => rw [hstep] at hrun; exact absurd hrun (by simp)
    | some pr =>
      obtain ⟨c2, returned⟩ := pr
      rw [hstep] at hrun
      obtain ⟨hinv2, hacc2⟩ := chunkStep_inv c op c2 returned hinv hstep
      obtain ⟨hinv3, hacc3⟩ := ih c2 _ st k hinv2 hrun
      refine ⟨hinv3, ?_⟩
      have hcount : countLoans (op :: rest)
          = countLoans rest + (if op = ChunkOp.loan then 1 else 0) := by
        simp [countLoans, List.count_cons]
      by_cases hop : op = ChunkOp.loan <;>
        cases returned <;>
          simp [hop] at hacc2 hacc3 hcount ⊢ <;>
            omega

/-- C1: Along every valid interleaving of loan, publish duplication, pop
and release on one chunk, the refcount stays nonnegative, the refcount is
zero exactly when the chunk sits on its origin pool's free list, and each
loaned lifetime ends with exactly one return of the chunk to its origin
pool at its last release. -/
theorem chunk_refcount_lifecycle (ops : List ChunkOp) (st : ChunkState) (rets : Nat)
    (h : chunkRun (initChunk, 0) ops = some (st, rets)) :
    0 ≤ st.refcount
    ∧ (st.refcount = 0 ↔ st.onFreeList = true)
    ∧ rets + (if st.onFreeList then 0 else 1) = countLoans ops := by
  obtain ⟨hinv, hacc⟩ := chunkRun_inv ops initChunk 0 st rets (by simp [initChunk]) h
  refine ⟨Nat.zero_le _, hinv, ?_⟩
  simpa [initChunk] using hacc

/-- Witness for C1: loan, duplicate to a queue, pop, and two releases
return the chunk to the pool exactly once. -/
theorem chunk_refcount_lifecycle_witness :
    chunkRun (initChunk, 0)
        [ChunkOp.loan, ChunkOp.publishDup, ChunkOp.pop, ChunkOp.release, ChunkOp.release]
      = some (⟨0, true⟩, 1)
    ∧ (0 ≤ (ChunkState.mk 0 true).refcount
        ∧ ((ChunkState.mk 0 true).refcount = 0 ↔ (ChunkState.mk 0 true).onFreeList = true)
        ∧ 1 + (if (ChunkState.mk 0 true).onFreeList then 0 else 1)
            = countLoans
                [ChunkOp.loan, ChunkOp.publishDup, ChunkOp.pop, ChunkOp.release,
                  ChunkOp.release]) :=
  ⟨by decide,
    chunk_refcount_lifecycle
      [ChunkOp.loan, ChunkOp.publishDup, ChunkOp.pop, ChunkOp.release, ChunkOp.release]
      ⟨0, true⟩ 1 (by decide)⟩

/-- Appending an element above every element of a strictly increasing list
keeps the list strictly increasing. -/
theorem pairwise_append_bound {l : List Nat} {n : Nat}
    (h1 : List.Pairwise (· < ·) l) (h2 : ∀ x ∈ l, x < n) :
    List.Pairwise (· < ·) (l ++ [n]) := by
  refine List.pairwise_append.mpr ⟨h1, List.pairwise_singleton _ _, ?_⟩
  intro a ha b hb
  simp only [List.mem_singleton] at hb
  subst hb
  exact h2 a ha

/-- A pop on an empty delivery queue changes nothing. -/
theorem popSeq_nil (s : PubSubState) (h : s.queue = []) : popSeq s = s := by
  simp [popSeq, h]

/-- A pop on a nonempty delivery queue moves the front into the observed
sequence. -/
theorem popSeq_cons (s : PubSubState) (x : Nat) (rest : List Nat) (h : s.queue = x :: rest) :
    popSeq s = { s with queue := rest, observed := s.observed ++ [x] } := by
  simp [popSeq, h]

/-- One step of the publisher/subscriber pair preserves the ordering
invariant: the observed and queued sequence numbers, in order, form a
strictly increasing list bounded by the publisher's sequence counter. -/
theorem pubSubStep_inv (cap : Nat) (pol : OverflowPolicy) (s : PubSubState) (op : PubSubOp)
    (h1 : List.Pairwise (· < ·) (s.observed ++ s.queue))
    (h2 : ∀ x ∈ s.observed ++ s.queue, x < s.nextSeq) :
    List.Pairwise (· < ·)
        ((pubSubStep cap pol s op).observed ++ (pubSubStep cap pol s op).queue)
    ∧ ∀ x ∈ (pubSubStep cap pol s op).observed ++ (pubSubStep cap pol s op).queue,
        x < (pubSubStep cap pol s op).nextSeq := by
  cases op with
  | publish =>
    simp only [pubSubStep, publishSeq]
    split
    · constructor
      · rw [← List.append_assoc]
        exact pairwise_append_bound h1 h2
      · intro x hx
        rw [← List.append_assoc] at hx
        rcases List.mem_append.mp hx with hx | hx
        · exact Nat.lt_succ_of_lt (h2 x hx)
        · simp only [List.mem_singleton] at hx
          subst hx
          exact Nat.lt_succ_self _
    · cases pol with
      | discardNew =>
        refine ⟨h1, ?_⟩
        intro x hx
        exact Nat.lt_succ_of_lt (h2 x hx)
      | dropOldest =>
        have hsub : (s.observed ++ (s.queue.tail ++ [s.nextSeq])).Sublist
            (s.observed ++ (s.queue ++ [s.nextSeq])) :=
          List.Sublist.append_left ((List.tail_sublist _).append (List.Sublist.refl _)) _
        constructor
        · refine List.Pairwise.sublist hsub ?_
          rw [← List.append_assoc]
          exact pairwise_append_bound h1 h2
        · intro x hx
          have hx2 := hsub.subset hx
          rw [← List.append_assoc] at hx2
          rcases List.mem_append.mp hx2 with hx2 | hx2
          · exact Nat.lt_succ_of_lt (h2 x hx2)
          · simp only [List.mem_singleton] at hx2
            subst hx2
            exact Nat.lt_succ_self _
  | pop =>
    cases hq : s.queue with
    | nil =>
      rw [show pubSubStep cap pol s PubSubOp.pop = popSeq s from rfl, popSeq_nil s hq]
      exact ⟨h1, h2⟩
    | cons x rest =>
      rw [show pubSubStep cap pol s PubSubOp.pop = popSeq s from rfl, popSeq_cons s x rest hq]
      rw [hq] at h1 h2
      constructor
      · simpa [List.append_assoc] using h1
      · intro y hy
        refine h2 y ?_
        simpa using hy

/-- The ordering invariant holds in every reachable state of the
publisher/subscriber pair. -/
theorem runPubSub_inv (cap : Nat) (pol : OverflowPolicy) (ops : List PubSubOp) :
    List.Pairwise (· < ·) ((runPubSub cap pol ops).observed ++ (runPubSub cap pol ops).queue)
    ∧ ∀ x ∈ (runPubSub cap pol ops).observed ++ (runPubSub cap pol ops).queue,
        x < (runPubSub cap pol ops).nextSeq := by
  suffices h : ∀ s : PubSubState,
      (List.Pairwise (· < ·) (s.observed ++ s.queue)
        ∧ ∀ x ∈ s.observed ++ s.queue, x < s.nextSeq) →
      (List.Pairwise (· < ·)
          ((ops.foldl (pubSubStep cap pol) s).observed
            ++ (ops.foldl (pubSubStep cap pol) s).queue)
        ∧ ∀ x ∈ (ops.foldl (pubSubStep cap pol) s).observed
            ++ (ops.foldl (pubSubStep cap pol) s).queue,
            x < (ops.foldl (pubSubStep cap pol) s).nextSeq) by
    exact h ⟨0, [], []⟩ (by simp)
  induction ops with
  | nil => intro s hs; exact hs
  | cons op rest ih =>
    intro s hs
    exact ih _ (pubSubStep_inv cap pol s op hs.1 hs.2)

/-- C2: For every capacity and overflow policy and every interleaving of
publishes and pops of one publisher/subscriber pair, the sequence numbers
observed by the subscriber form a strictly increasing sequence, so a
publisher's publish calls are observed in program order. -/
theorem per_publisher_fifo (cap : Nat) (pol : OverflowPolicy) (ops : List PubSubOp) :
    List.Pairwise (· < ·) (runPubSub cap pol ops).observed :=
  List.Pairwise.sublist (List.sublist_append_left _ _) (runPubSub_inv cap pol ops).1

/-- Accounting invariant of the DISCARD_NEW queue, generalized over the
starting state: successful pushes plus overflows grow by the number of
push attempts, and pops plus residue balance successful pushes. -/
theorem dnQueue_accounting_aux (cap : Nat) (ops : List QueueOp) :
    ∀ s : DNQueueState,
    ((ops.foldl (dnStep cap) s).pushOk + (ops.foldl (dnStep cap) s).overflow
        = s.pushOk + s.overflow + countPushes ops)
    ∧ ((ops.foldl (dnStep cap) s).pops + (ops.foldl (dnStep cap) s).queue.length
          + s.pushOk
        = (ops.foldl (dnStep cap) s).pushOk + s.pops + s.queue.length) := by
  induction ops with
  | nil =>
    intro s
    simp only [List.foldl_nil, countPushes, List.countP_nil]
    omega
  | cons op rest ih =>
    intro s
    obtain ⟨ih1, ih2⟩ := ih (dnStep cap s op)
    cases op with
    | push v =>
      by_cases hlen : s.queue.length < cap
      · simp only [List.foldl_cons] at ih1 ih2 ⊢
        simp [dnStep, hlen, countPushes, List.countP_cons] at ih1 ih2 ⊢
        omega
      · simp only [List.foldl_cons] at ih1 ih2 ⊢
        simp [dnStep, hlen, countPushes, List.countP_cons] at ih1 ih2 ⊢
        omega
    | pop =>
      cases hq : s.queue with
      | nil =>
        simp only [List.foldl_cons] at ih1 ih2 ⊢
        simp [dnStep, hq, countPushes, List.countP_cons] at ih1 ih2 ⊢
        omega
      | cons x rest2 =>
        simp only [List.foldl_cons] at ih1 ih2 ⊢
        simp [dnStep, hq, countPushes, List.countP_cons] at ih1 ih2 ⊢
        omega

/-- C3 counterexample: on a DISCARD_NEW queue of capacity 1, a single
successful push with no pop leaves successful pops plus the overflow
counter at 0 while the number of successful pushes is 1. -/
theorem discard_new_accounting_cex :
    ¬ ((runDNQueue 1 [QueueOp.push 0]).pops + (runDNQueue 1 [QueueOp.push 0]).overflow
        = (runDNQueue 1 [QueueOp.push 0]).pushOk) := by decide

/-- C3 amended: for every DISCARD_NEW queue capacity, after any sequence
of pushes and pops the number of successful pops plus the overflow counter
plus the number of elements still in the queue equals the number of push
attempts; equivalently, successful pops plus the queue residue equal the
successful pushes. -/
theorem discard_new_accounting (cap : Nat) (ops : List QueueOp) :
    (runDNQueue cap ops).pops + (runDNQueue cap ops).overflow
        + (runDNQueue cap ops).queue.length = countPushes ops
    ∧ (runDNQueue cap ops).pops + (runDNQueue cap ops).queue.length
        = (runDNQueue cap ops).pushOk := by
  obtain ⟨h1, h2⟩ := dnQueue_accounting_aux cap ops ⟨[], 0, 0, 0⟩
  simp only [runDNQueue]
  simp at h1 h2
  omega

/-- The linear scan of the mapping table, started at any index, finds the
segment a valid raw address was built from, provided the mapped segments
are pairwise disjoint. -/
theorem offsetOfFrom_spec (table : List SegmentInfo) :
    ∀ (i s : Nat) (seg : SegmentInfo) (o : Nat),
    table.Pairwise SegDisjoint → table[s]? = some seg → o < seg.size →
    offsetOfFrom table i (seg.base + o) = some (i + s, o) := by
  induction table with
  | nil =>
    intro i s seg o _ hs _
    simp at hs
  | cons hd rest ih =>
    intro i s seg o hpw hs ho
    obtain ⟨hhd, hrest⟩ := List.pairwise_cons.mp hpw
    cases s with
    | zero =>
      rw [List.getElem?_cons_zero] at hs
      injection hs with hs
      subst hs
      have hc : segContains hd (hd.base + o) = true := by
        simp only [segContains, Bool.and_eq_true, decide_eq_true_eq]
        omega
      simp only [offsetOfFrom, if_pos hc, Nat.add_sub_cancel_left, Nat.add_zero]
    | succ s2 =>
      rw [List.getElem?_cons_succ] at hs
      have hmem : seg ∈ rest := List.getElem?_mem hs
      have hdisj := hhd seg hmem
      have hnc : ¬ (segContains hd (seg.base + o) = true) := by
        simp only [segContains, Bool.and_eq_true, decide_eq_true_eq, not_and]
        intro hb
        rcases hdisj with hd1 | hd2 <;> omega
      simp only [offsetOfFrom, if_neg hnc]
      rw [ih (i + 1) s2 seg o hrest hs ho]
      have harith : i + 1 + s2 = i + (s2 + 1) := by omega
      rw [harith]

/-- C4: For every valid pair of a mapped segment id and an in-bounds byte
offset, with pairwise disjoint mapped segments, converting to a raw
address with ptr and back with offset_of is the identity. -/
theorem offset_roundtrip (table : List SegmentInfo) (s o : Nat) (seg : SegmentInfo)
    (hdisj : table.Pairwise SegDisjoint) (hs : table[s]? = some seg) (ho : o < seg.size) :
    (segPtr table s o).bind (offsetOf table) = some (s, o) := by
  simp only [segPtr, hs, if_pos ho, Option.some_bind]
  simpa [offsetOf] using offsetOfFrom_spec table 0 s seg o hdisj hs ho

/-- Witness for C4: a table of two disjoint segments, segment id 1 and
offset 5. -/
theorem offset_roundtrip_witness :
    ([SegmentInfo.mk 0 16, SegmentInfo.mk 100 32].Pairwise SegDisjoint
      ∧ [SegmentInfo.mk 0 16, SegmentInfo.mk 100 32][1]? = some (SegmentInfo.mk 100 32)
      ∧ 5 < (SegmentInfo.mk 100 32).size)
    ∧ (segPtr [SegmentInfo.mk 0 16, SegmentInfo.mk 100 32] 1 5).bind
        (offsetOf [SegmentInfo.mk 0 16, SegmentInfo.mk 100 32]) = some (1, 5) :=
  ⟨⟨by decide, by decide, by decide⟩,
    offset_roundtrip [SegmentInfo.mk 0 16, SegmentInfo.mk 100 32] 1 5
      (SegmentInfo.mk 100 32) (by decide) (by decide) (by decide)⟩

/-- C5: Replay hands a late joiner exactly min(n, current history depth)
chunks, as a suffix of the history ring in oldest-to-newest order; in the
concrete scenario of history capacity 3 and published payloads 1, 2, 3, 4,
a subscriber requesting 2 chunks of history receives 3 then 4 and never
1 or 2. -/
theorem history_replay_correct (n : Nat) (hist : List Nat) :
    (historyReplay n hist).length = min n hist.length
    ∧ historyReplay n hist <:+ hist
    ∧ historyAfter 3 [1, 2, 3, 4] = [2, 3, 4]
    ∧ historyReplay 2 (historyAfter 3 [1, 2, 3, 4]) = [3, 4]
    ∧ (replayIntoQueue 4 (historyReplay 2 (historyAfter 3 [1, 2, 3, 4]))).queue = [3, 4]
    ∧ 1 ∉ (replayIntoQueue 4 (historyReplay 2 (historyAfter 3 [1, 2, 3, 4]))).queue
    ∧ 2 ∉ (replayIntoQueue 4 (historyReplay 2 (historyAfter 3 [1, 2, 3, 4]))).queue := by
  refine ⟨?_, List.drop_suffix _ _, by decide, by decide, by decide, by decide, by decide⟩
  simp only [historyReplay, List.length_drop]
  omega

/-- C6: In the DROP_OLDEST scenario with queue capacity 2 and four
publishes of payloads 1, 2, 3, 4 before any pop, the subscriber pops
observe 3 then 4, the overflow counter is 2, and the pool free count is
the total chunk count minus 2. -/
theorem drop_oldest_scenario (total : Nat) (h : 4 ≤ total) :
    (scenarioAfterPublishes total).overflow = 2
    ∧ (scenarioAfterPops total).observed = [3, 4]
    ∧ (scenarioAfterPublishes total).free = total - 2 := by
  obtain ⟨m, rfl⟩ := Nat.exists_eq_add_of_le h
  refine ⟨?_, ?_, ?_⟩ <;>
    simp [scenarioAfterPublishes, scenarioAfterPops, sysInit, publishChunk, addRef,
      releaseRef, getRc, popObserve]
  all_goals omega

/-- Witness for C6 at a pool of 8 chunks. -/
theorem drop_oldest_scenario_witness :
    4 ≤ 8
    ∧ ((scenarioAfterPublishes 8).overflow = 2
        ∧ (scenarioAfterPops 8).observed = [3, 4]
        ∧ (scenarioAfterPublishes 8).free = 8 - 2) :=
  ⟨by decide, drop_oldest_scenario 8 (by decide)⟩

/-- C8: A service description containing a wildcard never gets a channel:
addChannel rejects it with UNSUPPORTED_SERVICE_TYPE and cannot return a
created channel, while the wildcard component does match anything in a
discovery query. -/
theorem gateway_ignores_wildcard (cap : Nat) (st : GatewayState) (sd ch : ServiceDescription)
    (st2 : GatewayState) (v : IdValue) (h : hasWildcard sd = true) :
    addChannel cap st sd = Except.error GatewayError.UNSUPPORTED_SERVICE_TYPE
    ∧ addChannel cap st sd ≠ Except.ok (ch, st2)
    ∧ idMatches IdValue.any v = true := by
  refine ⟨?_, ?_, ?_⟩
  · simp [addChannel, h]
  · simp [addChannel, h]
  · simp [idMatches]

/-- Witness for C8: a service description whose service component is the
wildcard is rejected by an empty gateway of capacity 4. -/
theorem gateway_ignores_wildcard_witness :
    hasWildcard ⟨IdValue.any, IdValue.name "radar", IdValue.name "objects"⟩ = true
    ∧ (addChannel 4 ⟨[]⟩ ⟨IdValue.any, IdValue.name "radar", IdValue.name "objects"⟩
          = Except.error GatewayError.UNSUPPORTED_SERVICE_TYPE
        ∧ addChannel 4 ⟨[]⟩ ⟨IdValue.any, IdValue.name "radar", IdValue.name "objects"⟩
            ≠ Except.ok (⟨IdValue.name "a", IdValue.name "b", IdValue.name "c"⟩,
                GatewayState.mk [⟨IdValue.name "a", IdValue.name "b", IdValue.name "c"⟩])
        ∧ idMatches IdValue.any (IdValue.name "radar") = true) :=
  ⟨by decide,
    gateway_ignores_wildcard 4 ⟨[]⟩ ⟨IdValue.any, IdValue.name "radar", IdValue.name "objects"⟩
      ⟨IdValue.name "a", IdValue.name "b", IdValue.name "c"⟩
      (GatewayState.mk [⟨IdValue.name "a", IdValue.name "b", IdValue.name "c"⟩])
      (IdValue.name "radar") (by decide)⟩

end Iceoryx
